import Mathlib

/-!
Verification development for the proposal-data synchronization script
(`src/_tasks/sync-proposal-data.ts`).  The script fetches the upstream
`tc39/proposals` README, extracts the Stage 3 markdown table, resolves
per-proposal fields (identifier, description, code sample, specification
presence, presentation entry, tests), assembles one record per row, and
rewrites the local dataset file only when every row resolves.

Strings are embedded as `List Char`.  JavaScript values that can be
`null`/`undefined`/string (the mutable scan accumulators of
`getCodeSample` and `getShortDescription`) are embedded as `JSVal`, so
that loose equality (`!= null`) and truthiness (`!description`) are
modelled exactly.  Remote fetches are fields of an explicit environment
`Env`; every fallible operation returns `Except` (an uncaught thrown
error or rejected promise is `Except.error`), and functions that may
issue a remote fetch additionally return a `Bool` flag recording whether
the fetch was issued.
-/

-- =============================================================================
-- JavaScript value model
-- =============================================================================

/-- A JavaScript value that is either `null`, `undefined`, or a string.
Used for the mutable accumulators in the dataset scans of
`getCodeSample` and `getShortDescription`. -/
inductive JSVal where
  | null : JSVal
  | undef : JSVal
  | str : List Char → JSVal
deriving DecidableEq, Repr

-- =============================================================================
-- Generic string (List Char) utilities mirroring the JS string operations used
-- =============================================================================

/-- Boolean test that `pat` occurs at the very start of `l` (the anchored part
of a regex literal match, and JS `String.prototype.startsWith`). -/
def beginsWith : List Char → List Char → Bool
  | [], _ => true
  | _ :: _, [] => false
  | a :: as, b :: bs => a = b && beginsWith as bs

theorem beginsWith_length {pat l : List Char} (h : beginsWith pat l = true) :
    pat.length ≤ l.length := by
  induction pat generalizing l with
  | nil => simp
  | cons a as ih =>
    cases l with
    | nil => simp [beginsWith] at h
    | cons b bs =>
      simp only [beginsWith, Bool.and_eq_true] at h
      simpa [List.length_cons] using Nat.succ_le_succ (ih h.2)

/-- JS `String.prototype.split` with a single-character separator. -/
def splitOnChar (c : Char) : List Char → List (List Char)
  | [] => [[]]
  | x :: xs =>
    match splitOnChar c xs with
    | [] => [[]]
    | y :: ys => if x = c then [] :: y :: ys else (x :: y) :: ys

/-- Split at the leftmost occurrence of `sep`: returns the part before the
occurrence and the part after it, or `none` when `sep` does not occur. -/
def splitFirstSeq (sep : List Char) : List Char → Option (List Char × List Char)
  | [] => none
  | c :: cs =>
    if beginsWith sep (c :: cs) = true then some ([], (c :: cs).drop sep.length)
    else
      match splitFirstSeq sep cs with
      | none => none
      | some (b, a) => some (c :: b, a)

theorem splitFirstSeq_length {sep l b a : List Char}
    (h : splitFirstSeq sep l = some (b, a)) (hsep : sep ≠ []) :
    a.length < l.length := by
  induction l generalizing b a with
  | nil => simp [splitFirstSeq] at h
  | cons c cs ih =>
    simp only [splitFirstSeq] at h
    split at h
    · rename_i hb
      have hlen : 1 ≤ sep.length := by
        cases sep with
        | nil => exact absurd rfl hsep
        | cons s ss => simp [List.length_cons]
      have := beginsWith_length hb
      simp only [Option.some.injEq, Prod.mk.injEq] at h
      rw [← h.2]
      simp only [List.length_drop, List.length_cons] at *
      omega
    · rename_i hb
      cases hrec : splitFirstSeq sep cs with
      | none => rw [hrec] at h; simp at h
      | some p =>
        rw [hrec] at h
        cases p with
        | mk b2 a2 =>
          simp only [Option.some.injEq, Prod.mk.injEq] at h
          obtain ⟨h1, h2⟩ := h
          subst h2
          have h3 := ih hrec
          simp only [List.length_cons]
          omega

/-- Fuel-driven worker for `splitOnSeq`; by `splitFirstSeq_length` every
step strictly shortens the remainder, so fuel equal to the length of the
input plus one is always sufficient. -/
def splitOnSeqGo (sep : List Char) : Nat → List Char → List (List Char)
  | 0, l => [l]
  | fuel + 1, l =>
    match splitFirstSeq sep l with
    | none => [l]
    | some (b, a) => b :: splitOnSeqGo sep fuel a

/-- JS `String.prototype.split` with a multi-character separator (the script
splits on the two-character separator between link text and link label, and
on the inline line-break tag). -/
def splitOnSeq (sep : List Char) (l : List Char) : List (List Char) :=
  if sep = [] then [l] else splitOnSeqGo sep (l.length + 1) l

/-- Suffix of `l` after the last occurrence of `sep`, or `none` when `sep`
does not occur.  This is how a greedy `.*` before a literal behaves: the
literal is matched at its last possible position. -/
def lastSplitSeq (sep : List Char) : List Char → Option (List Char)
  | [] => none
  | c :: cs =>
    match lastSplitSeq sep cs with
    | some r => some r
    | none =>
      if beginsWith sep (c :: cs) = true then some ((c :: cs).drop sep.length)
      else none

/-- JS `String.prototype.trim` restricted to the space character (the only
whitespace the embedded tables use around cell separators). -/
def trimSpaces (l : List Char) : List Char :=
  ((l.dropWhile (fun c => c = ' ')).reverse.dropWhile (fun c => c = ' ')).reverse

/-- JS `String.prototype.replace` with a one-character string pattern:
only the first occurrence is replaced. -/
def replaceFirstChar (a b : Char) : List Char → List Char
  | [] => []
  | c :: cs => if c = a then b :: cs else c :: replaceFirstChar a b cs

theorem length_dropWhile_le (p : Char → Bool) (l : List Char) :
    (l.dropWhile p).length ≤ l.length := by
  induction l with
  | nil => simp
  | cons c cs ih =>
    simp only [List.dropWhile]
    split
    · exact Nat.le_trans ih (Nat.le_succ _)
    · simp

-- =============================================================================
-- HTML sanitization model (external collaborator)
-- =============================================================================

/-- Lower-cased alphabetic tag name of the text between an opening angle
bracket and the matching closing one (a leading slash is skipped). -/
def tagNameOf (inner : List Char) : List Char :=
  ((inner.dropWhile (fun c => c = '/')).takeWhile (fun c => c.isAlpha)).map Char.toLower

/-- Worker for `stripTags`: `buf` is `some` of the reversed characters read
since an unmatched opening angle bracket. -/
def stripTagsGo (allowed : List (List Char)) : Option (List Char) → List Char → List Char
  | none, [] => []
  | some buf, [] => '<' :: buf.reverse
  | none, c :: cs =>
    if c = '<' then stripTagsGo allowed (some []) cs
    else c :: stripTagsGo allowed none cs
  | some buf, c :: cs =>
    if c = '>' then
      if tagNameOf buf.reverse ∈ allowed then
        ('<' :: buf.reverse) ++ '>' :: stripTagsGo allowed none cs
      else stripTagsGo allowed none cs
    else stripTagsGo allowed (some (c :: buf)) cs

/-- Modelled from the spec: the script delegates HTML stripping to the
external `sanitize-html` collaborator (spec section 1 treats HTML
sanitization as an external collaborator with a simple contract, and
section 4.1 describes that contract: remove every HTML tag whose name is
not in the allow-list, keep all other text). -/
def stripTags (allowed : List (List Char)) (l : List Char) : List Char :=
  stripTagsGo allowed none l

-- =============================================================================
-- Data model (typedefs of sync-proposal-data.ts)
-- =============================================================================

/-- One presentation occurrence (interface `PresenceObj`). -/
structure PresenceObj where
  date : List Char
  url : Option (List Char)
deriving DecidableEq, Repr

/-- The unit of output (interface `ProposalRecord`).  The source field
named after the keyword for sample code is embedded as `exampleVal`. -/
structure ProposalRecord where
  id : List Char
  title : List Char
  exampleVal : Option (List Char)
  presented : List PresenceObj
  has_specification : Bool
  description : Option (List Char)
  authors : List (List Char)
  champions : List (List Char)
  tests : Option (List (List Char))
deriving DecidableEq, Repr

/-- Raw intermediate row shape (interface `ProposalStageTableRecord`).
The tests cell is optional because the assembler guards it with a
`hasOwn` check; the other cells are accessed unconditionally. -/
structure ProposalStageTableRecord where
  proposal : List Char
  author : List Char
  champion : List Char
  tests : Option (List Char)
  last_presented : List Char
deriving DecidableEq, Repr

/-- A record of the existing local dataset as loaded from YAML, restricted
to the fields the script reads.  An outer `none` means the key is absent
from the record (the `hasOwn` checks distinguish this); `some none` means
the key is present with a null value; `some (some s)` is a string value.
For `id` only equality with a string matters, so absent and null collapse
into `none`. -/
structure DataRecord where
  id : Option (List Char)
  exampleVal : Option (Option (List Char))
  description : Option (Option (List Char))
deriving DecidableEq, Repr

/-- One entry of the metadata file listing. -/
structure FileEntry where
  path : List Char
deriving DecidableEq, Repr

/-- Modelled from the spec: the remote metadata fetch (method
`fetchMetadata` of the external `GhFileImporter` collaborator, not under
`src/`) returns a structure including a file listing and a description
field (spec section 6). -/
structure MetadataResponse where
  files : List FileEntry
  description : Option (List Char)

/-- The effectful environment of one run: the already-fetched upstream
proposals README, the two remote fetch operations (which may reject), and
the external markdown code-span converter used for titles. -/
structure Env where
  proposalsReadme : List Char
  fetchReadme : List Char → Except (List Char) (List Char)
  fetchMeta : List Char → Except (List Char) MetadataResponse
  mdCodeSpans2html : List Char → List Char

-- =============================================================================
-- Helpers (sync-proposal-data.ts lines 89-223)
-- =============================================================================

/-- Source lines 89-91: a cell is treated as a full reference link exactly
when it starts with an opening bracket. -/
def isFullRefLink (cellContents : List Char) : Bool :=
  match cellContents with
  | '[' :: _ => true
  | _ => false

/-- Source lines 99-102: split the full reference link on the closing
bracket and opening bracket pair; partition 0 is the link text (first
character removed), partition 1 is the link label (last character
removed).  `none` models the thrown TypeError when the requested
partition does not exist. -/
def getFullRefLinkContent (fullRefLink : List Char) (index : Nat) : Option (List Char) :=
  match (splitOnSeq (("][").data) fullRefLink).get? index with
  | none => none
  | some part => if index = 0 then some (part.drop 1) else some part.dropLast

/-- One attempted match of the link-reference-definition pattern at the
start of `l`: an opening bracket, the literal prefix, then (on the same
line, greedily) a closing bracket, colon and space, capturing the rest of
the line.  Greediness makes the separator match at its last occurrence in
the line. -/
def matchUrlDefAt (linkTextLike : List Char) (l : List Char) : Option (List Char) :=
  if beginsWith ('[' :: linkTextLike) l = true then
    lastSplitSeq (("]: ").data) ((l.drop (1 + linkTextLike.length)).takeWhile (fun c => c ≠ '\n'))
  else none

/-- Leftmost match of the link-reference-definition pattern in the
document (regex scan of source line 109-110). -/
def scanUrlDef (linkTextLike : List Char) : List Char → Option (List Char)
  | [] => none
  | c :: cs =>
    match matchUrlDefAt linkTextLike (c :: cs) with
    | some r => some r
    | none => scanUrlDef linkTextLike cs

/-- Source lines 108-111 (`getUrlFromDoc`): the function builds a fresh
regex on every call, so each call scans the document from the start;
`none` models the thrown TypeError when no definition line matches.  The
prefix is treated literally (the spec notes regex metacharacters in the
prefix as an out-of-scope fragility). -/
def getUrlFromDoc (doc : List Char) (linkTextLike : List Char) : Option (List Char) :=
  scanUrlDef linkTextLike doc

/-- Source lines 149-160 (`getPrpslId`): resolve the URL, drop one
trailing slash, take the final path segment, lower-cased. -/
def getPrpslId (doc : List Char) (linkTextLike : List Char) : Option (List Char) :=
  match getUrlFromDoc doc linkTextLike with
  | none => none
  | some prpslUrl =>
    let url2 := if prpslUrl.getLast? = some '/' then prpslUrl.dropLast else prpslUrl
    some ((List.getLastD (splitOnChar '/' url2) []).map Char.toLower)

-- =============================================================================
-- Dataset scans and code-sample resolution (source lines 125-147, 184-205)
-- =============================================================================

/-- The JS value assigned to the scan accumulator for a matching record:
`undefined` when the key is absent, otherwise the stored value. -/
def fieldVal (v : Option (Option (List Char))) : JSVal :=
  match v with
  | none => JSVal.undef
  | some none => JSVal.null
  | some (some s) => JSVal.str s

/-- The linear dataset scan shared by `getCodeSample` (source lines
131-134, accumulator initialized to null) and `getShortDescription`
(source lines 189-194, accumulator initialized to undefined): every
record whose id equals the requested identifier overwrites the
accumulator. -/
def scanField (field : DataRecord → Option (Option (List Char))) (prpslData : List DataRecord)
    (prpslId : List Char) (init : JSVal) : JSVal :=
  prpslData.foldl
    (fun acc value => if value.id = some prpslId then fieldVal (field value) else acc) init

/-- One attempted match of the fenced-code-block pattern at the start of
`l`: three backticks, any run of lowercase letters, a newline, then the
shortest body followed by a newline, three backticks and a newline. -/
def matchCodeBlockAt (l : List Char) : Option (List Char) :=
  if beginsWith (("```").data) l = true then
    let rest := l.drop 3
    let letters := rest.takeWhile (fun c => decide ('a' ≤ c ∧ c ≤ 'z'))
    match rest.drop letters.length with
    | '\n' :: body =>
      match splitFirstSeq (("\n```\n").data) body with
      | some (content, _) => some ((("```").data) ++ letters ++ '\n' :: content ++ (("\n```\n").data))
      | none => none
    | _ => none
  else none

/-- A single `exec` call of the fenced-code-block regex: the leftmost
match in the document, or `none`.  The source calls `exec` exactly once,
so only the first match is ever produced. -/
def execCodeBlock : List Char → Option (List Char)
  | [] => none
  | c :: cs =>
    match matchCodeBlockAt (c :: cs) with
    | some m => some m
    | none => execCodeBlock cs

/-- One attempted match of the fence-marker replacement pattern at the
start of `l`: three backticks, lazily as few non-newline characters as
possible, then greedily one or more newlines; returns the suffix after
the match. -/
def matchFenceAt (l : List Char) : Option (List Char) :=
  if beginsWith (("```").data) l = true then
    match (l.drop 3).dropWhile (fun c => c ≠ '\n') with
    | '\n' :: t => some (t.dropWhile (fun c => c = '\n'))
    | _ => none
  else none

theorem matchFenceAt_length {l rest : List Char} (h : matchFenceAt l = some rest) :
    rest.length < l.length := by
  unfold matchFenceAt at h
  split at h
  · rename_i hb
    have h3 : (3 : Nat) ≤ l.length := beginsWith_length hb
    have hlen : ((l.drop 3).dropWhile (fun c => c ≠ '\n')).length ≤ l.length - 3 := by
      have h4 := length_dropWhile_le (fun c => c ≠ '\n') (l.drop 3)
      simpa [List.length_drop] using h4
    split at h
    · rename_i t heq
      simp only [Option.some.injEq] at h
      have h1 : rest.length ≤ t.length := by
        rw [← h]; exact length_dropWhile_le _ t
      rw [heq] at hlen
      simp only [List.length_cons] at hlen
      omega
    · simp at h
  · simp at h

/-- Fuel-driven worker for `stripFenceMarks`; by `matchFenceAt_length`
every step strictly shortens the remainder, so fuel equal to the length
of the input plus one is always sufficient. -/
def stripFenceMarksGo : Nat → List Char → List Char
  | 0, l => l
  | fuel + 1, l =>
    match matchFenceAt l with
    | some rest => stripFenceMarksGo fuel rest
    | none =>
      match l with
      | [] => []
      | c :: cs => c :: stripFenceMarksGo fuel cs

/-- Source line 146: global replacement of the fence-marker pattern by
the empty string. -/
def stripFenceMarks (l : List Char) : List Char :=
  stripFenceMarksGo (l.length + 1) l

/-- Source lines 141-147 (remote part of `getCodeSample`): a single call
of the fenced-code-block regex yields at most one match, which becomes
the one-element block array; the last array element (that same first
match) has its fence markers replaced away; with no match the result is
explicitly absent. -/
def extractCodeSample (contents : List Char) : Option (List Char) :=
  match execCodeBlock contents with
  | none => none
  | some m => some (stripFenceMarks m)

/-- Source lines 125-147 (`getCodeSample`): scan the local dataset with a
null-initialized accumulator; a loosely non-null result (any string,
including the empty one) is returned without fetching; otherwise (no
matching record, a matching record without the key, or a stored null)
the proposal README is fetched and scraped.  The second component
records whether the remote fetch was issued. -/
def getCodeSample (env : Env) (prpslData : List DataRecord) (prpslId : List Char) :
    Except (List Char) (Option (List Char)) × Bool :=
  match scanField DataRecord.exampleVal prpslData prpslId JSVal.null with
  | JSVal.str s => (Except.ok (some s), false)
  | _ =>
    match env.fetchReadme prpslId with
    | Except.error e => (Except.error e, true)
    | Except.ok contents => (Except.ok (extractCodeSample contents), true)

-- =============================================================================
-- Specification presence (source lines 162-170)
-- =============================================================================

/-- Source lines 163-170 (`hasSpec`), pure part: fold over the metadata
file listing, setting the flag on any entry whose path is exactly
spec.html. -/
def hasSpec (files : List FileEntry) : Bool :=
  files.foldl
    (fun isFound value => if value.path = ("spec.html").data then true else isFound) false

/-- `hasSpec` together with its metadata fetch, which may reject. -/
def hasSpecM (env : Env) (prpslId : List Char) : Except (List Char) Bool :=
  match env.fetchMeta prpslId with
  | Except.error e => Except.error e
  | Except.ok result => Except.ok (hasSpec result.files)

-- =============================================================================
-- Short description (source lines 184-205)
-- =============================================================================

/-- Source lines 184-205 (`getShortDescription`): scan the local dataset
with an undefined-initialized accumulator; a truthy result (a non-empty
string) is returned without fetching; otherwise (no matching record, a
matching record without the key, a stored null, or a stored empty
string) the repository metadata is fetched and its description field
returned.  The second component records whether the remote fetch was
issued. -/
def getShortDescription (env : Env) (prpslData : List DataRecord) (prpslId : List Char) :
    Except (List Char) (Option (List Char)) × Bool :=
  match scanField DataRecord.description prpslData prpslId JSVal.undef with
  | JSVal.str (c :: cs) => (Except.ok (some (c :: cs)), false)
  | _ =>
    match env.fetchMeta prpslId with
    | Except.error e => (Except.error e, true)
    | Except.ok repoMetadata => (Except.ok repoMetadata.description, true)

-- =============================================================================
-- Presentation entry (source lines 208-223)
-- =============================================================================

/-- Source lines 208-223 (`presenceObjFrom`): HTML-strip the last
presented cell; a value starting with an opening bracket is split as a
full reference link (visible text becomes the date, the label is
resolved to a URL through the document); any other value is the date
itself with an absent URL.  `none` models a thrown TypeError from the
link-label resolution. -/
def presenceObjFrom (doc : List Char) (lastPresentedVal : List Char) : Option PresenceObj :=
  let v := stripTags [] lastPresentedVal
  if isFullRefLink v = true then
    match getFullRefLinkContent v 1 with
    | none => none
    | some label =>
      match getUrlFromDoc doc label with
      | none => none
      | some url => some { date := (getFullRefLinkContent v 0).getD [], url := some url }
  else some { date := v, url := none }

-- =============================================================================
-- Table extraction (source lines 229-235) and its external parser model
-- =============================================================================

/-- Lines of a document, split on newline. -/
def linesOf (l : List Char) : List (List Char) := splitOnChar '\n' l

/-- One markdown table row: cells split on the pipe character, trimmed,
with the empty boundary cells produced by leading and trailing pipes
removed. -/
def parseRow (line : List Char) : List (List Char) :=
  let cells := (splitOnChar '|' line).map trimSpaces
  let cells2 :=
    match cells with
    | [] :: rest => rest
    | other => other
  match cells2.getLast? with
  | some [] => cells2.dropLast
  | _ => cells2

/-- Modelled from the spec: the external markdown-table parser
(`mdTbl2json` of the util-md-table collaborator, not under `src/`)
converts the table section into one mapping per data row, applying the
caller-supplied key mapper to the header cells and the caller-supplied
value mapper to the data cells (spec sections 2 and 4.1). -/
def mdTbl2json (tbl : List Char) (txtValMapper : List Char → List Char)
    (txtKeyMapper : List Char → List Char) : List (List (List Char × List Char)) :=
  match linesOf tbl with
  | [] => []
  | [_] => []
  | header :: _sepLine :: dataRows =>
    let keys := (parseRow header).map txtKeyMapper
    (dataRows.filter (fun line => line ≠ [])).map
      (fun line => keys.zip ((parseRow line).map txtValMapper))

/-- The key mapper the script passes at source lines 234-235: lower-case
the header, replace the first space by an underscore, strip all tags. -/
def normKey (s : List Char) : List Char :=
  stripTags [] (replaceFirstChar ' ' '_' (s.map Char.toLower))

/-- The value mapper the script passes at source line 233: strip tags
with inline code and line breaks allowed. -/
def normVal (s : List Char) : List Char :=
  stripTags [(("code").data), (("br").data)] s

/-- The table extraction exactly as called at source lines 231-235. -/
def jsonTblOf (tbl : List Char) : List (List (List Char × List Char)) :=
  mdTbl2json tbl normVal normKey

/-- Definition following the claimed normalization word for word, for
comparison with the call site: lower-case the header, replace ALL of its
spaces with underscores, strip all tags. -/
def specNormKey (s : List Char) : List Char :=
  stripTags [] ((s.map Char.toLower).map (fun c => if c = ' ' then '_' else c))

-- =============================================================================
-- Record assembly (source lines 242-258)
-- =============================================================================

/-- Source lines 254-255: the tests field is a one-element list with the
resolved URL when the tests cell exists and is a full reference link,
and is absent otherwise.  `Except.error` models a thrown TypeError from
the label split or the URL resolution. -/
def testsField (doc : List Char) (tests : Option (List Char)) :
    Except (List Char) (Option (List (List Char))) :=
  match tests with
  | none => Except.ok none
  | some t =>
    if isFullRefLink t = true then
      match getFullRefLinkContent t 1 with
      | none => Except.error (("TypeError").data)
      | some lbl =>
        match getUrlFromDoc doc lbl with
        | none => Except.error (("TypeError").data)
        | some url => Except.ok (some [url])
    else Except.ok none

/-- Source lines 243-257: assembly of one ProposalRecord from one table
row, with the resolver calls in the evaluation order of the object
literal (identifier first, then description, code sample, specification
presence, presentation entry, title, tests).  The first failure aborts
the row. -/
def buildRecord (env : Env) (prpslData : List DataRecord) (row : ProposalStageTableRecord) :
    Except (List Char) ProposalRecord :=
  match getFullRefLinkContent row.proposal 1 with
  | none => Except.error (("TypeError").data)
  | some lbl =>
    match getPrpslId env.proposalsReadme lbl with
    | none => Except.error (("TypeError").data)
    | some prpslRcrdId =>
      match (getShortDescription env prpslData prpslRcrdId).1 with
      | Except.error e => Except.error e
      | Except.ok description =>
        match (getCodeSample env prpslData prpslRcrdId).1 with
        | Except.error e => Except.error e
        | Except.ok exampleVal =>
          match hasSpecM env prpslRcrdId with
          | Except.error e => Except.error e
          | Except.ok has_specification =>
            match presenceObjFrom env.proposalsReadme row.last_presented with
            | none => Except.error (("TypeError").data)
            | some presence =>
              match testsField env.proposalsReadme row.tests with
              | Except.error e => Except.error e
              | Except.ok tests =>
                Except.ok
                  { id := prpslRcrdId
                    title := env.mdCodeSpans2html ((getFullRefLinkContent row.proposal 0).getD [])
                    exampleVal := exampleVal
                    presented := [presence]
                    has_specification := has_specification
                    description := description
                    authors := splitOnSeq (("<br />").data) row.author
                    champions := splitOnSeq (("<br />").data) row.champion
                    tests := tests }

-- =============================================================================
-- Collection and write (source lines 260-269)
-- =============================================================================

/-- Source lines 262-265: walk the settled results in order, collecting
fulfilled values; the first rejected result throws, abandoning the walk
and everything collected so far, so the overall outcome is `none`. -/
def collectSettled : List (Except (List Char) ProposalRecord) → Option (List ProposalRecord)
  | [] => some []
  | Except.ok v :: rest =>
    match collectSettled rest with
    | none => none
    | some vs => some (v :: vs)
  | Except.error _ :: _ => none

/-- Boolean success test on a settled result. -/
def isOkE (e : Except (List Char) ProposalRecord) : Bool :=
  match e with
  | Except.ok _ => true
  | Except.error _ => false

/-- Source lines 260-269: the content of the output file after the run.
When every result is fulfilled the file is rewritten with the serialized
collection; otherwise the walk throws before the write, leaving the
previous content in place. -/
def runWrite (prevFile : List Char) (serialize : List ProposalRecord → List Char)
    (results : List (Except (List Char) ProposalRecord)) : List Char :=
  match collectSettled results with
  | none => prevFile
  | some data => serialize data

/-- Source lines 242-258 and 260-265 combined: the per-row record
promises in table order, settled and collected positionally. -/
def runPipeline (env : Env) (prpslData : List DataRecord)
    (rows : List ProposalStageTableRecord) : Option (List ProposalRecord) :=
  collectSettled (rows.map (buildRecord env prpslData))


-- =============================================================================
-- Concrete run data used by the closed evaluations and witnesses
-- =============================================================================

/-- A small upstream proposals README containing three
link-reference-definition lines. -/
def docEx : List Char :=
  ("[Temporal]: https://github.com/tc39/proposal-temporal\n[foo-tests]: https://github.com/tc39/test262/pull/1\n[some-notes]: https://notes.example/dec-2019\n").data

/-- An environment whose remote fetches always succeed: the proposal
README holds one fenced code block, the metadata lists a top-level
spec.html and carries a description. -/
def envEx : Env :=
  { proposalsReadme := docEx
    fetchReadme := fun _ => Except.ok (("```js\nconst x = 1;\n```\n").data)
    fetchMeta := fun _ =>
      Except.ok { files := [{ path := ("spec.html").data }], description := some (("A desc").data) }
    mdCodeSpans2html := fun s => s }

/-- One well-formed stage table row. -/
def rowEx : ProposalStageTableRecord :=
  { proposal := ("[Temporal][Temporal]").data
    author := ("A. Dev<br />B. Dev").data
    champion := ("C. Dev").data
    tests := some (("[Tests][foo-tests]").data)
    last_presented := ("<sub>[December 2019][some-notes]</sub>").data }

/-- The record `buildRecord` assembles from `rowEx` under `envEx` with an
empty local dataset. -/
def recEx : ProposalRecord :=
  { id := ("proposal-temporal").data
    title := ("Temporal").data
    exampleVal := some (("const x = 1;\n").data)
    presented := [{ date := ("December 2019").data, url := some (("https://notes.example/dec-2019").data) }]
    has_specification := true
    description := some (("A desc").data)
    authors := [("A. Dev").data, ("B. Dev").data]
    champions := [("C. Dev").data]
    tests := some [("https://github.com/tc39/test262/pull/1").data] }

-- =============================================================================
-- Shared lemmas
-- =============================================================================

theorem find?_append_match {α : Type} (p : α → Bool) (l₁ l₂ : List α) :
    (l₁ ++ l₂).find? p
      = match l₁.find? p with
        | some a => some a
        | none => l₂.find? p := by
  induction l₁ with
  | nil => simp
  | cons a l ih =>
    by_cases hp : p a
    · simp [List.find?, hp]
    · simp only [List.cons_append, List.find?]
      rw [Bool.not_eq_true] at hp
      rw [hp]
      exact ih

/-- A left fold in which every element satisfying the predicate overwrites
the accumulator computes the image of the last such element. -/
theorem foldl_last_match {α β : Type} (p : α → Prop) [DecidablePred p] (g : α → β)
    (init : β) (l : List α) :
    l.foldl (fun acc r => if p r then g r else acc) init
      = ((l.reverse.find? (fun r => decide (p r))).map g).getD init := by
  induction l generalizing init with
  | nil => simp
  | cons a l ih =>
    simp only [List.foldl_cons, List.reverse_cons, find?_append_match]
    rw [ih]
    cases hf : l.reverse.find? (fun r => decide (p r)) with
    | some r => simp
    | none =>
      by_cases hp : p a <;> simp [List.find?, hp]

theorem collectSettled_map (d : List ProposalRecord) :
    collectSettled (d.map Except.ok) = some d := by
  induction d with
  | nil => rfl
  | cons v vs ih => simp [collectSettled, ih]

theorem collectSettled_error {results : List (Except (List Char) ProposalRecord)}
    (h : ∃ r ∈ results, isOkE r = false) : collectSettled results = none := by
  induction results with
  | nil => simp at h
  | cons r rest ih =>
    obtain ⟨x, hx, hfail⟩ := h
    cases r with
    | error e => rfl
    | ok v =>
      have hxrest : x ∈ rest := by
        cases hx with
        | head => simp [isOkE] at hfail
        | tail _ hmem => exact hmem
      simp only [collectSettled]
      rw [ih ⟨x, hxrest, hfail⟩]

/-- The last record of the dataset whose id equals the requested
identifier. -/
def lastMatching (prpslData : List DataRecord) (prpslId : List Char) : Option DataRecord :=
  prpslData.reverse.find? (fun r => decide (r.id = some prpslId))

theorem scanField_eq_lastMatching (field : DataRecord → Option (Option (List Char)))
    (prpslData : List DataRecord) (prpslId : List Char) (init : JSVal) :
    scanField field prpslData prpslId init
      = ((lastMatching prpslData prpslId).map (fun r => fieldVal (field r))).getD init := by
  unfold scanField lastMatching
  exact foldl_last_match (fun r : DataRecord => r.id = some prpslId)
    (fun r => fieldVal (field r)) init prpslData

theorem lastMatching_id {prpslData : List DataRecord} {prpslId : List Char} {r : DataRecord}
    (h : lastMatching prpslData prpslId = some r) : r.id = some prpslId := by
  have := List.find?_some h
  simpa using this

theorem scanField_lastMatching_toList (field : DataRecord → Option (Option (List Char)))
    (prpslData : List DataRecord) (prpslId : List Char) (init : JSVal) :
    scanField field prpslData prpslId init
      = scanField field (lastMatching prpslData prpslId).toList prpslId init := by
  rw [scanField_eq_lastMatching]
  cases hm : lastMatching prpslData prpslId with
  | none => rfl
  | some r =>
    simp only [Option.toList_some, scanField, List.foldl_cons, List.foldl_nil,
      Option.map_some, Option.getD_some]
    rw [if_pos (lastMatching_id hm)]
    simp

-- =============================================================================
-- Claim theorems
-- =============================================================================

/-- A dataset holding one record for identifier x whose code-sample key is
absent and whose description is present but empty. -/
def dsC1 : List DataRecord :=
  [{ id := some (("x").data), exampleVal := none, description := some (some []) }]

/-- Claim C1 (divergence evaluation): for a dataset that DOES contain a
matching record for x — with the code-sample key absent and the
description present as the empty string — both resolvers issue a remote
fetch (second component true) and return the remotely derived value
instead of the locally stored one, because the scan result fails the
loose non-null test of source line 139 respectively the truthiness test
of source line 196. -/
theorem c1_absent_local_value_triggers_fetch :
    (getCodeSample envEx dsC1 (("x").data)).2 = true
    ∧ (getCodeSample envEx dsC1 (("x").data)).1 = Except.ok (some (("const x = 1;\n").data))
    ∧ (getShortDescription envEx dsC1 (("x").data)).2 = true
    ∧ (getShortDescription envEx dsC1 (("x").data)).1 = Except.ok (some (("A desc").data)) :=
  ⟨rfl, rfl, rfl, rfl⟩

/-- An environment whose proposal README holds two fenced code blocks,
the first containing first and the last containing last. -/
def envC2 : Env :=
  { envEx with
    fetchReadme := fun _ => Except.ok (("```js\nfirst\n```\nmiddle\n```js\nlast\n```\n").data) }

/-- Claim C2 (divergence evaluation): with no matching dataset record,
the code-sample fallback on a README holding two fenced blocks returns
the FIRST block's content (the single `exec` call of source line 144
yields only the leftmost match), not the last block's content; a README
with no fenced block yields an explicitly absent value. -/
theorem c2_first_block_returned :
    (getCodeSample envC2 [] (("x").data)).1 = Except.ok (some (("first\n").data))
    ∧ (("first\n").data) ≠ (("last").data)
    ∧ (("first\n").data) ≠ (("last\n").data)
    ∧ extractCodeSample (("no code here\n").data) = none :=
  ⟨rfl, by decide, by decide, rfl⟩

/-- Claim C5: specification-presence resolution returns true exactly when
the metadata file listing contains an entry whose path is exactly
spec.html; in particular it is false for a listing holding only
spec/index.html and for a listing with no such entry. -/
theorem c5_hasSpec_iff_top_level_spec_html :
    ∀ files : List FileEntry,
      (hasSpec files = true ↔ ∃ e ∈ files, e.path = ("spec.html").data)
      ∧ hasSpec [{ path := ("spec/index.html").data }] = false
      ∧ hasSpec ([] : List FileEntry) = false := by
  intro files
  refine ⟨?_, by decide, rfl⟩
  unfold hasSpec
  rw [foldl_last_match (fun v : FileEntry => v.path = ("spec.html").data) (fun _ => true) false files]
  constructor
  · intro h
    cases hf : files.reverse.find? (fun v => decide (v.path = ("spec.html").data)) with
    | none => rw [hf] at h; simp at h
    | some e =>
      have hmem : e ∈ files := List.mem_reverse.mp (List.mem_of_find?_eq_some hf)
      have hp := List.find?_some hf
      exact ⟨e, hmem, by simpa using hp⟩
  · intro h
    obtain ⟨e, hmem, hpath⟩ := h
    cases hf : files.reverse.find? (fun v => decide (v.path = ("spec.html").data)) with
    | none =>
      have := List.find?_eq_none.mp hf e (List.mem_reverse.mpr hmem)
      simp [hpath] at this
    | some r => simp

/-- Claim C9: identifier resolution is deterministic and idempotent; the
source constructs a fresh regex object on every call of `getUrlFromDoc`
(source line 109), so no matcher state survives between calls and the
embedding is a pure function of the document and the prefix: two
resolutions of the same prefix against the same document coincide. -/
theorem c9_id_resolution_deterministic :
    ∀ doc linkTextLike : List Char,
      getPrpslId doc linkTextLike = getPrpslId doc linkTextLike
      ∧ getUrlFromDoc doc linkTextLike = getUrlFromDoc doc linkTextLike :=
  fun _ _ => ⟨rfl, rfl⟩

/-- Claim C10: when the dataset contains several records with the same
identifier, both resolvers behave exactly as if only the LAST matching
record were present (each later match overwrites the earlier one in the
linear scan), and the scanned local value is precisely the field of the
last matching record. -/
theorem c10_last_match_wins :
    ∀ (env : Env) (prpslData : List DataRecord) (prpslId : List Char),
      getCodeSample env prpslData prpslId
          = getCodeSample env (lastMatching prpslData prpslId).toList prpslId
      ∧ getShortDescription env prpslData prpslId
          = getShortDescription env (lastMatching prpslData prpslId).toList prpslId
      ∧ scanField DataRecord.exampleVal prpslData prpslId JSVal.null
          = ((lastMatching prpslData prpslId).map (fun r => fieldVal r.exampleVal)).getD JSVal.null
      ∧ scanField DataRecord.description prpslData prpslId JSVal.undef
          = ((lastMatching prpslData prpslId).map (fun r => fieldVal r.description)).getD JSVal.undef := by
  intro env prpslData prpslId
  refine ⟨?_, ?_, scanField_eq_lastMatching _ _ _ _, scanField_eq_lastMatching _ _ _ _⟩
  · unfold getCodeSample
    rw [scanField_lastMatching_toList]
  · unfold getShortDescription
    rw [scanField_lastMatching_toList]

/-- Claim C3: if any settled result is a failure, the output content
after the run equals the previous content (the write never executes);
and when every row resolves (the results are exactly a list of
fulfilled records) the file is rewritten in full with the serialized
collection. -/
theorem c3_no_partial_write :
    ∀ (results : List (Except (List Char) ProposalRecord)) (prevFile : List Char)
      (serialize : List ProposalRecord → List Char),
      ((∃ r ∈ results, isOkE r = false) → runWrite prevFile serialize results = prevFile)
      ∧ (∀ data, results = List.map Except.ok data →
          runWrite prevFile serialize results = serialize data) := by
  intro results prevFile serialize
  constructor
  · intro h
    unfold runWrite
    rw [collectSettled_error h]
  · intro data hdata
    unfold runWrite
    rw [hdata, collectSettled_map]

/-- A serializer stub for the closed instantiation of claim C3. -/
def serEx : List ProposalRecord → List Char := fun _ => ("rewritten").data

theorem c3_no_partial_write_witness :
    runWrite (("previous").data) serEx [Except.error (("boom").data)] = (("previous").data)
    ∧ runWrite (("previous").data) serEx [] = serEx [] :=
  ⟨(c3_no_partial_write [Except.error (("boom").data)] (("previous").data) serEx).1
      ⟨Except.error (("boom").data), by simp, rfl⟩,
   (c3_no_partial_write [] (("previous").data) serEx).2 [] rfl⟩

/-- Claim C6: when every row's resolver chain succeeds, the pipeline
produces an output collection whose size equals the number of table rows
and whose i-th record is exactly the record assembled from the i-th row
(positional correspondence; the settled results are collected in table
order, not completion order). -/
theorem c6_output_matches_rows :
    ∀ (env : Env) (prpslData : List DataRecord) (rows : List ProposalStageTableRecord),
      (∀ row ∈ rows, ∃ rec, buildRecord env prpslData row = Except.ok rec) →
      ∃ out, runPipeline env prpslData rows = some out
        ∧ out.length = rows.length
        ∧ ∀ i, ∀ hi : i < rows.length, ∀ ho : i < out.length,
            buildRecord env prpslData (rows.get ⟨i, hi⟩) = Except.ok (out.get ⟨i, ho⟩) := by
  intro env prpslData rows h
  induction rows with
  | nil =>
    refine ⟨[], rfl, rfl, ?_⟩
    intro i hi
    simp at hi
  | cons row rest ih =>
    obtain ⟨rec, hrec⟩ := h row (List.mem_cons_self row rest)
    obtain ⟨out, h1, h2, h3⟩ := ih (fun r hr => h r (List.mem_cons_of_mem row hr))
    refine ⟨rec :: out, ?_, ?_, ?_⟩
    · unfold runPipeline at h1 ⊢
      simp only [List.map_cons, hrec, collectSettled, h1]
    · simp [List.length_cons, h2]
    · intro i hi ho
      cases i with
      | zero => simpa using hrec
      | succ j =>
        have hj : j < rest.length := by
          simp only [List.length_cons] at hi
          omega
        have hjo : j < out.length := by
          simp only [List.length_cons] at ho
          omega
        simpa using h3 j hj hjo

theorem c6_output_matches_rows_witness :
    ∃ out, runPipeline envEx [] [rowEx] = some out ∧ out.length = 1 := by
  obtain ⟨out, h1, h2, h3⟩ := c6_output_matches_rows envEx [] [rowEx] (by
    intro row hrow
    have heq : row = rowEx := by simpa using hrow
    subst heq
    exact ⟨recEx, rfl⟩)
  exact ⟨out, h1, by simpa using h2⟩

/-- Claim C7: presentation-entry resolution HTML-strips the last
presented cell and classifies it by its leading character: the full
reference link of the spec's example yields the link text as the date
and the URL resolved from the link label's reference definition, while
the bare string example yields the whole string as the date with an
absent URL. -/
theorem c7_presence_classification :
    (∀ (doc url : List Char), getUrlFromDoc doc (("some-notes").data) = some url →
      presenceObjFrom doc (("<sub>[December 2019][some-notes]</sub>").data)
        = some { date := ("December 2019").data, url := some url })
    ∧ (∀ doc : List Char,
      presenceObjFrom doc (("<sub>September 2020</sub>").data)
        = some { date := ("September 2020").data, url := none }) := by
  constructor
  · intro doc url h
    have hred : presenceObjFrom doc (("<sub>[December 2019][some-notes]</sub>").data)
        = match getUrlFromDoc doc (("some-notes").data) with
          | none => none
          | some u => some { date := ("December 2019").data, url := some u } := rfl
    rw [hred, h]
  · intro doc
    rfl

/-- A document holding only the reference definition used by the claim
C7 instantiation. -/
def docC7 : List Char := ("[some-notes]: https://notes.example/dec-2019\n").data

theorem c7_presence_classification_witness :
    presenceObjFrom docC7 (("<sub>[December 2019][some-notes]</sub>").data)
      = some { date := ("December 2019").data, url := some (("https://notes.example/dec-2019").data) }
    ∧ presenceObjFrom docC7 (("<sub>September 2020</sub>").data)
      = some { date := ("September 2020").data, url := none } :=
  ⟨c7_presence_classification.1 docC7 (("https://notes.example/dec-2019").data) rfl,
   c7_presence_classification.2 docC7⟩

/-- Claim C8: in every successfully assembled record the tests field is
exactly the value computed by the tests-cell rule of source lines
254-255, which yields a one-element list holding the URL resolved from
the cell's link label when the cell is a full reference link, and an
absent field when the cell is plain text. -/
theorem c8_tests_field :
    (∀ (env : Env) (prpslData : List DataRecord) (row : ProposalStageTableRecord)
        (rec : ProposalRecord),
      buildRecord env prpslData row = Except.ok rec →
      testsField env.proposalsReadme row.tests = Except.ok rec.tests)
    ∧ (∀ (doc t lbl url : List Char), isFullRefLink t = true →
        getFullRefLinkContent t 1 = some lbl → getUrlFromDoc doc lbl = some url →
        testsField doc (some t) = Except.ok (some [url]))
    ∧ (∀ (doc t : List Char), isFullRefLink t = false →
        testsField doc (some t) = Except.ok none) := by
  refine ⟨?_, ?_, ?_⟩
  · intro env prpslData row rec h
    unfold buildRecord at h
    repeat' split at h
    all_goals try (exact Except.noConfusion h)
    rename_i tests heq
    simp only [Except.ok.injEq] at h
    subst h
    exact heq
  · intro doc t lbl url h1 h2 h3
    simp [testsField, h1, h2, h3]
  · intro doc t h1
    simp [testsField, h1]

theorem c8_tests_field_witness :
    testsField docEx (some (("[Tests][foo-tests]").data))
      = Except.ok (some [("https://github.com/tc39/test262/pull/1").data])
    ∧ testsField docEx (some (("none yet").data)) = Except.ok none :=
  ⟨c8_tests_field.2.1 docEx (("[Tests][foo-tests]").data) (("foo-tests").data)
      (("https://github.com/tc39/test262/pull/1").data) rfl rfl rfl,
   c8_tests_field.2.2 docEx (("none yet").data) rfl⟩

/-- A table whose second header holds two spaces. -/
def tblCx : List Char :=
  ("| Proposal | Last Presented Date |\n| --- | --- |\n| [A][a] | x |").data

/-- Claim C4 (counterexample): on a header containing two spaces the
extracted key replaces only the first space with an underscore, so no
key of the extracted table equals the claimed all-spaces-replaced
normalization of that header. -/
theorem c4_normalized_keys_counterexample :
    (∃ row ∈ jsonTblOf tblCx, ∃ kv ∈ row, kv.1 = ("last_presented date").data)
    ∧ (∀ row ∈ jsonTblOf tblCx, ∀ kv ∈ row,
        kv.1 ≠ specNormKey (("Last Presented Date").data))
    ∧ specNormKey (("Last Presented Date").data) = ("last_presented_date").data :=
  ⟨by decide, by decide, rfl⟩

/-- Claim C4 (amended): every key of the extracted table is obtained
from a raw header cell by lower-casing it, replacing its FIRST space
with an underscore, and stripping all HTML tags; every value is a raw
cell with tags stripped except the inline code and line-break tags,
which are kept. -/
theorem c4_normalized_keys :
    ∀ (tbl header sepLine : List Char) (dataRows : List (List Char)),
      linesOf tbl = header :: sepLine :: dataRows →
      ∀ row ∈ jsonTblOf tbl, ∀ kv ∈ row,
        (∃ rawKey ∈ parseRow header,
            kv.1 = stripTags [] (replaceFirstChar ' ' '_' (rawKey.map Char.toLower)))
        ∧ (∃ rawCell, kv.2 = stripTags [(("code").data), (("br").data)] rawCell) := by
  intro tbl header sepLine dataRows hl row hrow kv hkv
  obtain ⟨k, v⟩ := kv
  unfold jsonTblOf mdTbl2json at hrow
  rw [hl] at hrow
  simp only [List.mem_map] at hrow
  obtain ⟨line, hline, hroweq⟩ := hrow
  subst hroweq
  have hz := List.of_mem_zip hkv
  constructor
  · obtain ⟨rawKey, hmem, hkeq⟩ := List.mem_map.mp hz.1
    exact ⟨rawKey, hmem, hkeq.symm⟩
  · obtain ⟨rawCell, hmem, hveq⟩ := List.mem_map.mp hz.2
    exact ⟨rawCell, hveq.symm⟩

theorem c4_normalized_keys_witness :
    (∃ rawKey ∈ parseRow (("| Proposal | Last Presented |").data),
        ("last_presented").data
          = stripTags [] (replaceFirstChar ' ' '_' (rawKey.map Char.toLower)))
    ∧ (∃ rawCell, ("x").data = stripTags [(("code").data), (("br").data)] rawCell) :=
  c4_normalized_keys
    (("| Proposal | Last Presented |\n| --- | --- |\n| [A][a] | <sub>x</sub> |").data)
    (("| Proposal | Last Presented |").data) (("| --- | --- |").data)
    [(("| [A][a] | <sub>x</sub> |").data)] rfl
    [((("proposal").data), (("[A][a]").data)), ((("last_presented").data), (("x").data))]
    (by decide) ((("last_presented").data), (("x").data)) (by decide)
